import Mathlib

/-!
Verification of the DESeq2-from-Python pipeline (`de.py`, `de_ma.py`).

The pipeline is shallowly embedded: count matrices are lists of genes,
each gene carrying a label-indexed row of rational counts (pandas selects
columns by label); the per-condition gene filter `sel_count`, the condition
sheet, the rounding step, the column renaming, the inner-join merge and the
MA-plot selectors are translated directly from the source.
-/

namespace DE

/-- A gene row: counts are looked up by sample (column) label, as pandas
`loc` does.  Counts are rationals: the source allows fractional counts
before rounding. -/
def Row : Type := String → ℚ

/-- A count matrix: sample columns in order, and rows keyed by gene id.
Mirrors the pandas DataFrame `dcount_cond` of `de.py`. -/
structure Matrix where
  samples : List String
  genes : List (String × Row)

/-- `m.loc[:, names]`: label-based column selection.  The resulting column
order is `names`, independent of `m.samples`. -/
def selectCols (m : Matrix) (names : List String) : Matrix :=
  { samples := names, genes := m.genes }

/-- `de.py` line 46:
`sel_count = np.all([np.any(dcount_cond.loc[:, samples1] >= min_count, axis=1),
np.any(dcount_cond.loc[:, samples2] >= min_count, axis=1)], axis=0)`,
evaluated for one gene row. -/
def sel_count (counts : Row) (samples1 samples2 : List String) (min_count : ℚ) : Bool :=
  (samples1.any fun s => decide (min_count ≤ counts s)) &&
  (samples2.any fun s => decide (min_count ≤ counts s))

/-- The selection mask over the whole matrix, aligned with `m.genes`. -/
def selMask (m : Matrix) (samples1 samples2 : List String) (min_count : ℚ) : List Bool :=
  m.genes.map fun g => sel_count g.2 samples1 samples2 min_count

/-- `dcount_cond.loc[sel_count, :]`: the rows passing the filter. -/
def selectedRows (m : Matrix) (samples1 samples2 : List String) (min_count : ℚ) :
    List (String × Row) :=
  m.genes.filter fun g => sel_count g.2 samples1 samples2 min_count

end DE

namespace DE

/-- `sel_count` is true iff some group-a column and some group-b column each
reach the threshold. -/
theorem sel_count_iff (counts : Row) (s1 s2 : List String) (t : ℚ) :
    sel_count counts s1 s2 t = true ↔
      ((∃ s ∈ s1, t ≤ counts s) ∧ (∃ s ∈ s2, t ≤ counts s)) := by
  simp [sel_count, List.any_eq_true]

end DE

/-- C1: for any count matrix row with non-negative cells, non-empty groups
and threshold `t ≥ 0`, the gene passes `sel_count` iff at least one group-a
column is `≥ t` and at least one group-b column is `≥ t` (within-group OR,
between-group AND). -/
theorem C1_sel_count_or_and
    (counts : DE.Row) (s1 s2 : List String) (t : ℚ)
    (hnneg : ∀ s, 0 ≤ counts s) (h1 : s1 ≠ []) (h2 : s2 ≠ []) (ht : 0 ≤ t) :
    DE.sel_count counts s1 s2 t = true ↔
      ((∃ s ∈ s1, t ≤ counts s) ∧ (∃ s ∈ s2, t ≤ counts s)) :=
  DE.sel_count_iff counts s1 s2 t

/-- Witness for C1 at a concrete row, groups and threshold. -/
theorem C1_witness :
    DE.sel_count (fun _ => 5) ["s1"] ["s2"] 1 = true ↔
      ((∃ s ∈ ["s1"], (1 : ℚ) ≤ 5) ∧ (∃ s ∈ ["s2"], (1 : ℚ) ≤ 5)) :=
  C1_sel_count_or_and (fun _ => 5) ["s1"] ["s2"] 1
    (fun _ => by norm_num) (by decide) (by decide) (by norm_num)

/-- C6: raising the threshold never admits a gene: for `0 ≤ t1 ≤ t2`, every
gene passing at `t2` already passes at `t1` (the mask is pointwise
non-increasing in the threshold). -/
theorem C6_sel_count_antitone
    (counts : DE.Row) (s1 s2 : List String) (t1 t2 : ℚ)
    (ht1 : 0 ≤ t1) (ht2 : 0 ≤ t2) (h12 : t1 ≤ t2)
    (hpass : DE.sel_count counts s1 s2 t2 = true) :
    DE.sel_count counts s1 s2 t1 = true := by
  rw [DE.sel_count_iff] at hpass ⊢
  obtain ⟨⟨a, ha, hta⟩, ⟨b, hb, htb⟩⟩ := hpass
  exact ⟨⟨a, ha, le_trans h12 hta⟩, ⟨b, hb, le_trans h12 htb⟩⟩

/-- Witness for C6 at a concrete row and thresholds. -/
theorem C6_witness :
    DE.sel_count (fun _ => 5) ["s1"] ["s2"] 1 = true :=
  C6_sel_count_antitone (fun _ => 5) ["s1"] ["s2"] 1 3
    (by norm_num) (by norm_num) (by norm_num) (by decide)

namespace DE

/-- The concrete gene rows of the spec's end-to-end scenario:
G1 = [5,0,6,1], G2 = [0,0,0,0], G3 = [2,3,0,0] over samples s1..s4. -/
def scenarioRow (v1 v2 v3 v4 : ℚ) : Row := fun s =>
  if s = "s1" then v1 else if s = "s2" then v2 else
  if s = "s3" then v3 else if s = "s4" then v4 else 0

/-- The scenario count matrix with genes G1, G2, G3. -/
def scenarioMatrix : Matrix :=
  { samples := ["s1", "s2", "s3", "s4"]
    genes := [("G1", scenarioRow 5 0 6 1),
              ("G2", scenarioRow 0 0 0 0),
              ("G3", scenarioRow 2 3 0 0)] }

end DE

/-- C4 counterexample: on the scenario matrix with groups {s1,s2} / {s3,s4}
and threshold 1, the mask is NOT `[true, false, true]` (G3 fails: both
group-b counts are 0 < 1). -/
theorem C4_counterexample :
    DE.selMask DE.scenarioMatrix ["s1", "s2"] ["s3", "s4"] 1 ≠
      [true, false, true] := by
  decide

/-- C4 (amended): on the scenario matrix the mask is `[true, false, false]`
and the selected gene set is exactly {G1}. -/
theorem C4_scenario_mask :
    DE.selMask DE.scenarioMatrix ["s1", "s2"] ["s3", "s4"] 1 =
        [true, false, false] ∧
      (DE.selectedRows DE.scenarioMatrix ["s1", "s2"] ["s3", "s4"] 1).map
          Prod.fst = ["G1"] := by
  constructor <;> decide

namespace DE

/-- `de.py` line 51: the condition sheet, one row per sample — group-a
samples labeled `"a"` first, then group-b samples labeled `"b"`, names
verbatim (the DataFrame is built column-wise and transposed). -/
def cond_sheet (samples1 samples2 : List String) : List (String × String) :=
  samples1.map (fun s => (s, "a")) ++ samples2.map (fun s => (s, "b"))

end DE

/-- C7: the condition sheet lists group-a samples (label `a`) in their given
order, then group-b samples (label `b`); its row order equals the column
order of the filtered count table `dcount_cond = m.loc[:, s1+s2]`, whatever
the column order of the original matrix `m`. -/
theorem C7_cond_sheet_order (m : DE.Matrix) (s1 s2 : List String) :
    (DE.cond_sheet s1 s2).take s1.length = s1.map (fun s => (s, "a")) ∧
      (DE.cond_sheet s1 s2).drop s1.length = s2.map (fun s => (s, "b")) ∧
      (DE.cond_sheet s1 s2).map Prod.fst = (DE.selectCols m (s1 ++ s2)).samples := by
  refine ⟨?_, ?_, ?_⟩
  · rw [DE.cond_sheet, List.take_left']
    simp
  · rw [DE.cond_sheet, List.drop_left']
    simp
  · simp only [DE.cond_sheet, DE.selectCols, List.map_append, List.map_map,
      Function.comp_def]
    simp

namespace DE

/-- `de.py` line 48 `.round()`: pandas (numpy) rounds to the nearest
integer with ties to even (IEEE round-half-even), modelled on ℚ. -/
def roundHalfEven (q : ℚ) : ℤ :=
  if Int.fract q = 1 / 2 then (if Even ⌊q⌋ then ⌊q⌋ else ⌊q⌋ + 1) else round q

/-- `de.py` line 48 `dcount_cond.loc[sel_count, :].round()`: the rows
written for the external engine — selection on the unrounded counts first,
then each selected cell rounded. -/
def written_rows (m : Matrix) (s1 s2 : List String) (t : ℚ) :
    List (String × List ℤ) :=
  (selectedRows m s1 s2 t).map fun g =>
    (g.1, (s1 ++ s2).map fun s => roundHalfEven (g.2 s))

theorem fract_eq_self_sub_floor (q : ℚ) : Int.fract q = q - ⌊q⌋ := rfl

/-- At an exact half-integer, `roundHalfEven` lands on an even integer at
distance exactly 1/2. -/
theorem roundHalfEven_fract_half (q : ℚ) (h : Int.fract q = 1 / 2) :
    Even (roundHalfEven q) ∧ |q - (roundHalfEven q : ℚ)| = 1 / 2 := by
  have hq : q - (⌊q⌋ : ℚ) = 1 / 2 := by rw [← fract_eq_self_sub_floor, h]
  rw [roundHalfEven, if_pos h]
  by_cases he : Even ⌊q⌋
  · rw [if_pos he]
    refine ⟨he, ?_⟩
    rw [hq]
    norm_num
  · rw [if_neg he]
    refine ⟨by simpa using Int.even_add_one.mpr he, ?_⟩
    rw [show q - ((⌊q⌋ + 1 : ℤ) : ℚ) = q - (⌊q⌋ : ℚ) - 1 by push_cast; ring, hq]
    norm_num

/-- Away from half-integers, `roundHalfEven` is the unique nearest
integer: the distance to it is strictly below 1/2. -/
theorem abs_sub_roundHalfEven_lt (q : ℚ) (h : Int.fract q ≠ 1 / 2) :
    |q - (roundHalfEven q : ℚ)| < 1 / 2 := by
  have h0 : (0 : ℚ) ≤ Int.fract q := Int.fract_nonneg q
  have h1 : Int.fract q < 1 := Int.fract_lt_one q
  have hq : Int.fract q = q - ⌊q⌋ := rfl
  rw [roundHalfEven, if_neg h, round_eq]
  rcases lt_or_gt_of_ne h with hlt | hgt
  · have hfl : ⌊q + 1 / 2⌋ = ⌊q⌋ := by
      rw [Int.floor_eq_iff]
      constructor
      · have := Int.floor_le q
        linarith
      · linarith [hq ▸ hlt]
    rw [hfl, abs_lt]
    constructor <;> linarith [hq ▸ hlt, hq ▸ h0]
  · have hfl : ⌊q + 1 / 2⌋ = ⌊q⌋ + 1 := by
      rw [Int.floor_eq_iff]
      push_cast
      constructor <;> linarith [hq ▸ hgt, hq ▸ h1]
    rw [hfl, abs_lt]
    push_cast
    constructor <;> linarith [hq ▸ hgt, hq ▸ h1]

/-- `roundHalfEven` at `k + 1/2` picks `k` when `k` is even, else `k+1`. -/
theorem roundHalfEven_int_add_half (k : ℤ) :
    roundHalfEven ((k : ℚ) + 1 / 2) = if Even k then k else k + 1 := by
  have hfr : Int.fract ((k : ℚ) + 1 / 2) = 1 / 2 := by
    rw [Int.fract_int_add, Int.fract_eq_self.mpr (by norm_num)]
  have hfl : ⌊(k : ℚ) + 1 / 2⌋ = k := by
    rw [Int.floor_eq_iff]
    constructor <;> linarith
  rw [roundHalfEven, if_pos hfr, hfl]

end DE

/-- C8: cells written for the external engine are rounded half-to-even —
an exact half-integer goes to the nearest even integer (`1/2 → 0`,
`3/2 → 2`), any other value to its strictly nearest integer — and rounding
happens only after selection, applied to the selected (unrounded) rows. -/
theorem C8_round_half_even (q : ℚ) (k : ℤ) (m : DE.Matrix)
    (s1 s2 : List String) (t : ℚ) :
    (Int.fract q = 1 / 2 →
        Even (DE.roundHalfEven q) ∧ |q - (DE.roundHalfEven q : ℚ)| = 1 / 2) ∧
      (Int.fract q ≠ 1 / 2 → |q - (DE.roundHalfEven q : ℚ)| < 1 / 2) ∧
      DE.roundHalfEven ((k : ℚ) + 1 / 2) = (if Even k then k else k + 1) ∧
      DE.roundHalfEven (1 / 2) = 0 ∧ DE.roundHalfEven (3 / 2) = 2 ∧
      DE.written_rows m s1 s2 t =
        (DE.selectedRows m s1 s2 t).map (fun g =>
          (g.1, (s1 ++ s2).map fun s => DE.roundHalfEven (g.2 s))) := by
  refine ⟨DE.roundHalfEven_fract_half q, DE.abs_sub_roundHalfEven_lt q,
    DE.roundHalfEven_int_add_half k, ?_, ?_, rfl⟩
  · have h := DE.roundHalfEven_int_add_half 0
    norm_num at h
    simpa using h
  · have h := DE.roundHalfEven_int_add_half 1
    norm_num at h
    exact h

/-- Witness for C8 at `q = 1/2`, `k = 1` and a concrete matrix. -/
theorem C8_witness :
    Even (DE.roundHalfEven (1 / 2)) ∧
      |(1 / 2 : ℚ) - (DE.roundHalfEven (1 / 2) : ℚ)| = 1 / 2 :=
  (C8_round_half_even (1 / 2) 1 DE.scenarioMatrix ["s1"] ["s2"] 1).1
    (by rw [Int.fract_eq_self.mpr (by norm_num)])

namespace DE

/-- A result (or metadata) table: statistic columns in order, rows keyed by
gene id with values aligned to the columns.  Mirrors the DataFrames held in
`de_data` in `de.py`. -/
structure Table where
  cols : List String
  rows : List (String × List ℚ)
deriving DecidableEq

/-- The gene identifiers of a table, in row order. -/
def Table.index (t : Table) : List String := t.rows.map Prod.fst

/-- Label-based row lookup (first row with the given gene id). -/
def rowLookup (t : Table) (k : String) : Option (List ℚ) :=
  (t.rows.find? fun r => r.1 == k).map Prod.snd

/-- The values of gene `k` across all tables of `ts`, concatenated, or
`none` if some table lacks `k`. -/
def lookupAll (ts : List Table) (k : String) : Option (List ℚ) :=
  match ts with
  | [] => some []
  | t :: ts' =>
    match rowLookup t k, lookupAll ts' k with
    | some v, some vs => some (v ++ vs)
    | _, _ => none

/-- `de.py` line 62, `pd.concat(de_data, join='inner', axis=1)`: columns
are concatenated in table order; only gene ids present in every table are
kept (row order follows the first table). -/
def concatInner (ts : List Table) : Table :=
  match ts with
  | [] => ⟨[], []⟩
  | t0 :: rest =>
    { cols := t0.cols ++ (rest.map Table.cols).flatten
      rows := t0.rows.filterMap fun r =>
        (lookupAll rest r.1).map fun vs => (r.1, r.2 ++ vs) }

/-- `de.py` line 58,
`de.rename(columns=lambda x: test['name'] + col_sep + x)`. -/
def renameCols (t : Table) (name sep : String) : Table :=
  { cols := t.cols.map fun c => name ++ sep ++ c, rows := t.rows }

theorem concatInner_cons (t0 : Table) (rest : List Table) :
    concatInner (t0 :: rest) =
      { cols := t0.cols ++ (rest.map Table.cols).flatten
        rows := t0.rows.filterMap fun r =>
          (lookupAll rest r.1).map fun vs => (r.1, r.2 ++ vs) } := rfl

theorem rowLookup_isSome (t : Table) (k : String) :
    (rowLookup t k).isSome ↔ k ∈ t.index := by
  unfold rowLookup Table.index
  rcases h : t.rows.find? (fun r => r.1 == k) with _ | r
  · simp only [h, Option.map_none', Option.isSome_none, Bool.false_eq_true,
      false_iff]
    intro hk
    obtain ⟨r, hr, rfl⟩ := List.mem_map.mp hk
    have := List.find?_eq_none.mp h r hr
    simp at this
  · simp only [h, Option.map_some', Option.isSome_some, true_iff]
    have h1 := List.find?_some h
    have h2 := List.mem_of_find?_eq_some h
    simp only [beq_iff_eq] at h1
    exact h1 ▸ List.mem_map.mpr ⟨r, h2, rfl⟩

theorem lookupAll_isSome (ts : List Table) (k : String) :
    (lookupAll ts k).isSome ↔ ∀ t ∈ ts, k ∈ t.index := by
  induction ts with
  | nil => simp [lookupAll]
  | cons t ts' ih =>
    rw [List.forall_mem_cons, ← ih, ← rowLookup_isSome]
    rcases h1 : rowLookup t k with _ | v <;>
      rcases h2 : lookupAll ts' k with _ | vs <;>
      simp [lookupAll, h1, h2]

/-- Gene membership in the inner-join result: present iff present in the
head table and in every remaining table. -/
theorem mem_concatInner_index (t0 : Table) (rest : List Table) (k : String) :
    k ∈ (concatInner (t0 :: rest)).index ↔
      k ∈ t0.index ∧ ∀ t ∈ rest, k ∈ t.index := by
  rw [← lookupAll_isSome, concatInner_cons]
  unfold Table.index
  simp only [List.map_filterMap, List.mem_filterMap]
  constructor
  · rintro ⟨r, hr, he⟩
    rcases hl : lookupAll rest r.1 with _ | vs
    · rw [hl] at he; simp at he
    · rw [hl] at he
      simp only [Option.map_some'] at he
      obtain rfl : r.1 = k := by simpa using he
      exact ⟨List.mem_map.mpr ⟨r, hr, rfl⟩, by rw [hl]; rfl⟩
  · rintro ⟨h0, hsome⟩
    obtain ⟨r, hr, rfl⟩ := List.mem_map.mp h0
    rcases hl : lookupAll rest r.1 with _ | vs
    · rw [hl] at hsome; simp at hsome
    · exact ⟨r, hr, by rw [hl]; rfl⟩

/-- The tables of the spec's merge scenario: comparison X carries genes
{G1, G2}, comparison Y carries {G2, G3}, metadata carries all three. -/
def tableMeta : Table :=
  ⟨["gene_name", "gene_length"], [("G1", [0, 10]), ("G2", [0, 20]), ("G3", [0, 30])]⟩

def tableX : Table := ⟨["padj"], [("G1", [1]), ("G2", [2])]⟩

def tableY : Table := ⟨["padj"], [("G2", [3]), ("G3", [4])]⟩

end DE

/-- C2: the merged table's columns are the metadata columns followed by each
comparison's columns in declaration order, and its gene set is exactly the
ids present in every input table; concretely, merging comparisons X (genes
{G1,G2}) and Y (genes {G2,G3}) keeps exactly {G2}. -/
theorem C2_concat_inner (meta : DE.Table) (des : List DE.Table) :
    (DE.concatInner (meta :: des)).cols =
        meta.cols ++ (des.map DE.Table.cols).flatten ∧
      (∀ k, k ∈ (DE.concatInner (meta :: des)).index ↔
        ∀ t ∈ meta :: des, k ∈ t.index) ∧
      (DE.concatInner [DE.tableMeta, DE.tableX, DE.tableY]).index = ["G2"] := by
  refine ⟨rfl, fun k => ?_, by decide⟩
  rw [DE.mem_concatInner_index]
  simp

namespace DE

/-- `l1 ++ ch :: c1 = l2 ++ ch :: d1` forces `l1 = l2` and `c1 = d1` when
`ch` occurs in neither `l1` nor `l2` (the first `ch` is the boundary). -/
theorem append_cons_inj {α : Type} {a : List α} {ch : α}
    (ha : ch ∉ a) : ∀ {b : List α}, ch ∉ b →
      ∀ {c d : List α}, a ++ ch :: c = b ++ ch :: d → a = b ∧ c = d := by
  induction a with
  | nil =>
    intro b hb c d h
    cases b with
    | nil => simpa using h
    | cons y ys =>
      simp only [List.nil_append, List.cons_append, List.cons.injEq] at h
      exact absurd (h.1 ▸ List.mem_cons_self y ys) (h.1 ▸ hb)
  | cons x xs ih =>
    intro b hb c d h
    cases b with
    | nil =>
      simp only [List.cons_append, List.nil_append, List.cons.injEq] at h
      exact absurd (h.1 ▸ List.mem_cons_self x xs) (by simp_all)
    | cons y ys =>
      simp only [List.cons_append, List.cons.injEq] at h
      obtain ⟨rfl, h2⟩ := h
      have := ih (fun hm => ha (List.mem_cons_of_mem _ hm))
        (fun hm => hb (List.mem_cons_of_mem _ hm)) h2
      exact ⟨by rw [this.1], this.2⟩

/-- Prefixing with `name ++ sep ++ ·` is injective in the column name. -/
theorem prefix_injective (name sep : String) :
    Function.Injective fun c => name ++ sep ++ c := by
  intro c1 c2 h
  apply String.ext
  have := congrArg String.data h
  simpa [String.data_append] using List.append_cancel_left this

end DE

/-- C5 counterexample: two result tables sharing the column `padj`, both
renamed with the same comparison name `X` and separator `" "`, merge to a
table whose column list still has a duplicate (`"X padj"` twice). -/
theorem C5_counterexample :
    ¬ (DE.concatInner
        [DE.renameCols DE.tableX "X" " ",
         DE.renameCols DE.tableY "X" " "]).cols.Nodup := by
  decide

/-- C5 (amended): if the two comparison names are distinct, the separator
is a single character occurring in neither name, and each table's column
list is itself duplicate-free, then after prefixing the merged table has no
duplicate column names. -/
theorem C5_renamed_cols_nodup
    (t1 t2 : DE.Table) (n1 n2 sep : String) (ch : Char)
    (hsep : sep.data = [ch]) (hn : n1 ≠ n2)
    (h1 : ch ∉ n1.data) (h2 : ch ∉ n2.data)
    (hc1 : t1.cols.Nodup) (hc2 : t2.cols.Nodup)
    (hshare : ∃ c, c ∈ t1.cols ∧ c ∈ t2.cols) :
    (DE.concatInner
        [DE.renameCols t1 n1 sep, DE.renameCols t2 n2 sep]).cols.Nodup := by
  have hcols : (DE.concatInner
      [DE.renameCols t1 n1 sep, DE.renameCols t2 n2 sep]).cols =
      (t1.cols.map fun c => n1 ++ sep ++ c) ++
        (t2.cols.map fun c => n2 ++ sep ++ c) := by
    simp [DE.concatInner, DE.renameCols]
  rw [hcols, List.nodup_append]
  refine ⟨hc1.map (DE.prefix_injective n1 sep),
    hc2.map (DE.prefix_injective n2 sep), ?_⟩
  intro x hx1 hx2
  obtain ⟨c1, -, rfl⟩ := List.mem_map.mp hx1
  obtain ⟨c2, -, heq⟩ := List.mem_map.mp hx2
  apply hn
  have hd := congrArg String.data heq
  simp only [String.data_append, hsep] at hd
  have hd' : n2.data ++ ch :: c2.data = n1.data ++ ch :: c1.data := by
    simpa using hd
  exact (String.ext (DE.append_cons_inj h2 h1 hd').1).symm

/-- Witness for C5 at concrete tables, names and separator. -/
theorem C5_witness :
    (DE.concatInner
        [DE.renameCols DE.tableX "X" " ",
         DE.renameCols DE.tableY "Y" " "]).cols.Nodup :=
  C5_renamed_cols_nodup DE.tableX DE.tableY "X" "Y" " " ' '
    (by decide) (by decide) (by decide) (by decide) (by decide) (by decide)
    ⟨"padj", by decide, by decide⟩

namespace MA

/-- `de_ma.py` line 23, `sel_pvalue = dds[... 'padj'] < cutoff_pvalue`.
A cell is `Option ℚ`; `none` models a missing value (NaN), and a pandas
comparison against NaN is false. -/
def sel_pvalue (padj : Option ℚ) (cutoff : ℚ) : Bool :=
  match padj with
  | some p => decide (p < cutoff)
  | none => false

/-- `de_ma.py` line 24,
`sel_fc = abs(dds[... 'log2FoldChange']) > cutoff_fc` (NaN compares
false). -/
def sel_fc (fc : Option ℚ) (cutoff : ℚ) : Bool :=
  match fc with
  | some f => decide (cutoff < |f|)
  | none => false

/-- `de_ma.py` line 35: the grey series mask `~sel_fc & ~sel_pvalue`. -/
def mask_neither (padj fc : Option ℚ) (pc fcc : ℚ) : Bool :=
  !sel_fc fc fcc && !sel_pvalue padj pc

/-- `de_ma.py` line 27: `sel_pvalue & ~sel_fc`. -/
def mask_sig_only (padj fc : Option ℚ) (pc fcc : ℚ) : Bool :=
  sel_pvalue padj pc && !sel_fc fc fcc

/-- `de_ma.py` line 28: `sel_fc & ~sel_pvalue`. -/
def mask_fc_only (padj fc : Option ℚ) (pc fcc : ℚ) : Bool :=
  sel_fc fc fcc && !sel_pvalue padj pc

/-- `de_ma.py` line 29: `sel_fc & sel_pvalue`. -/
def mask_sig_fc (padj fc : Option ℚ) (pc fcc : ℚ) : Bool :=
  sel_fc fc fcc && sel_pvalue padj pc

/-- `de_ma.py` lines 27-29: the legend counts are the sums (`.sum()`) of
the three non-grey masks over the gene rows `(padj, log2FoldChange)`. -/
def count_sig_only (genes : List (Option ℚ × Option ℚ)) (pc fcc : ℚ) : ℕ :=
  (genes.filter fun g => mask_sig_only g.1 g.2 pc fcc).length

def count_fc_only (genes : List (Option ℚ × Option ℚ)) (pc fcc : ℚ) : ℕ :=
  (genes.filter fun g => mask_fc_only g.1 g.2 pc fcc).length

def count_sig_fc (genes : List (Option ℚ × Option ℚ)) (pc fcc : ℚ) : ℕ :=
  (genes.filter fun g => mask_sig_fc g.1 g.2 pc fcc).length

theorem sel_fc_three : sel_fc (some 3) 2 = true := by
  have h3 : |(3 : ℚ)| = 3 := abs_of_nonneg (by norm_num)
  simp only [sel_fc, h3, decide_eq_true_eq]
  norm_num

theorem sel_pvalue_milli : sel_pvalue (some (1 / 1000)) (1 / 100) = true := by
  simp only [sel_pvalue, decide_eq_true_eq]
  norm_num

theorem sel_pvalue_half : sel_pvalue (some (1 / 2)) (1 / 100) = false := by
  simp only [sel_pvalue, decide_eq_true_eq, decide_eq_false_iff_not, not_lt]
  norm_num

end MA

/-- C3: the four series masks are determined by the two predicates
`significant = padj < p_cutoff` and `large_fc = |log2FC| > fc_cutoff` and
are mutually exclusive and exhaustive — every gene satisfies exactly one;
with padj = [0.001, 0.5], log2FC = [3, 3], fc_cutoff = 2, p_cutoff = 0.01,
gene 1 is "both" and gene 2 is "large-fc-only". -/
theorem C3_four_disjoint_categories
    (padj fc : Option ℚ) (pc fcc : ℚ)
    (hfcc : 0 < fcc) (hpc0 : 0 < pc) (hpc1 : pc < 1) :
    ([MA.mask_neither padj fc pc fcc, MA.mask_sig_only padj fc pc fcc,
        MA.mask_fc_only padj fc pc fcc, MA.mask_sig_fc padj fc pc fcc].count
          true = 1) ∧
      (MA.mask_neither padj fc pc fcc = true ↔
        ¬ MA.sel_pvalue padj pc = true ∧ ¬ MA.sel_fc fc fcc = true) ∧
      (MA.mask_sig_only padj fc pc fcc = true ↔
        MA.sel_pvalue padj pc = true ∧ ¬ MA.sel_fc fc fcc = true) ∧
      (MA.mask_fc_only padj fc pc fcc = true ↔
        MA.sel_fc fc fcc = true ∧ ¬ MA.sel_pvalue padj pc = true) ∧
      (MA.mask_sig_fc padj fc pc fcc = true ↔
        MA.sel_fc fc fcc = true ∧ MA.sel_pvalue padj pc = true) ∧
      MA.mask_sig_fc (some (1 / 1000)) (some 3) (1 / 100) 2 = true ∧
      MA.mask_fc_only (some (1 / 2)) (some 3) (1 / 100) 2 = true := by
  refine ⟨?_, ?_, ?_, ?_, ?_,
    by simp only [MA.mask_sig_fc];
       rw [MA.sel_fc_three, MA.sel_pvalue_milli]; rfl,
    by simp only [MA.mask_fc_only];
       rw [MA.sel_fc_three, MA.sel_pvalue_half]; rfl⟩ <;>
    cases hp : MA.sel_pvalue padj pc <;> cases hf : MA.sel_fc fc fcc <;>
      simp [MA.mask_neither, MA.mask_sig_only, MA.mask_fc_only,
        MA.mask_sig_fc, hp, hf]

/-- Witness for C3 at concrete values and cutoffs. -/
theorem C3_witness :
    MA.mask_sig_fc (some (1 / 1000)) (some 3) (1 / 100) 2 = true :=
  (C3_four_disjoint_categories (some (1 / 1000)) (some 3) (1 / 100) 2
    (by norm_num) (by norm_num) (by norm_num)).2.2.2.2.2.1

/-- C9 counterexample: a gene whose padj is missing but whose log2FC is 3
(cutoffs fc = 2, p = 0.01) is NOT classified "neither": it lands in the
large-fc-only series and is counted in the `FC` legend count. -/
theorem C9_counterexample :
    MA.mask_neither none (some 3) (1 / 100) 2 = false ∧
      MA.mask_fc_only none (some 3) (1 / 100) 2 = true ∧
      MA.count_fc_only [(none, some 3)] (1 / 100) 2 = 1 := by
  refine ⟨by simp [MA.mask_neither, MA.sel_fc_three],
    by simp [MA.mask_fc_only, MA.sel_fc_three, MA.sel_pvalue],
    ?_⟩
  simp [MA.count_fc_only, MA.mask_fc_only, MA.sel_fc_three, MA.sel_pvalue,
    List.filter]

/-- C9 (amended): a missing value makes its own predicate false, so a gene
with missing padj is excluded from the two counts requiring significance
(`Sig`, `Sig+FC`), a gene with missing log2FC is excluded from the two
counts requiring a large fold-change (`FC`, `Sig+FC`), and a gene with both
missing is classified "neither" and appears in none of the three legend
counts. -/
theorem C9_missing_values
    (padj fc : Option ℚ) (pc fcc : ℚ)
    (genes : List (Option ℚ × Option ℚ)) :
    MA.sel_pvalue none pc = false ∧ MA.sel_fc none fcc = false ∧
      MA.mask_sig_only none fc pc fcc = false ∧
      MA.mask_sig_fc none fc pc fcc = false ∧
      MA.mask_fc_only padj none pc fcc = false ∧
      MA.mask_sig_fc padj none pc fcc = false ∧
      MA.mask_neither none none pc fcc = true ∧
      MA.count_sig_only (genes ++ [(none, none)]) pc fcc =
        MA.count_sig_only genes pc fcc ∧
      MA.count_fc_only (genes ++ [(none, none)]) pc fcc =
        MA.count_fc_only genes pc fcc ∧
      MA.count_sig_fc (genes ++ [(none, none)]) pc fcc =
        MA.count_sig_fc genes pc fcc := by
  refine ⟨rfl, rfl, ?_, ?_, ?_, ?_, rfl, ?_, ?_, ?_⟩ <;>
    simp [MA.mask_sig_only, MA.mask_sig_fc, MA.mask_fc_only,
      MA.count_sig_only, MA.count_fc_only, MA.count_sig_fc,
      MA.sel_pvalue, MA.sel_fc, List.filter_append]

namespace FS

/-- A file in the pipeline's working directory: a rounded count table, a
condition sheet, or a result table. -/
inductive File
  | counts (rows : List (String × List ℤ))
  | conds (sheet : List (String × String))
  | table (t : DE.Table)

/-- The working directory, modelled as a path-indexed store. -/
def Store : Type := String → Option File

/-- Writing a file: the store is updated at one path only. -/
def writeStore (st : Store) (p : String) (f : File) : Store :=
  fun q => if q = p then some f else st q

/-- One entry of the `tests` list of `de.py` (lines 32-34). -/
structure Test where
  name : String
  samples1 : List String
  samples2 : List String

/-- `de.py` line 30. -/
def col_sep : String := " "

/-- `de.py` line 54: the output path handed to the external engine. -/
def enginePathOut : String := "de.csv"

/-- `de.py` line 63: the path of the final merged table. -/
def mergeOutPath : String := "de.csv"

/-- The engine's raw result for one test; the engine itself is opaque, a
function of the two files it is pointed at. -/
def raw_result (engine : File → File → DE.Table) (m : DE.Matrix) (minc : ℚ)
    (t : Test) : DE.Table :=
  engine (File.counts (DE.written_rows m t.samples1 t.samples2 minc))
    (File.conds (DE.cond_sheet t.samples1 t.samples2))

/-- `de.py` lines 44-59, one loop iteration: write `count.csv` and
`cond.csv`, let the engine write `de.csv`, read the result back and rename
its columns. -/
def run_test (engine : File → File → DE.Table) (m : DE.Matrix) (minc : ℚ)
    (t : Test) (st : Store) : Store × DE.Table :=
  let cf := File.counts (DE.written_rows m t.samples1 t.samples2 minc)
  let sf := File.conds (DE.cond_sheet t.samples1 t.samples2)
  let st1 := writeStore st "count.csv" cf
  let st2 := writeStore st1 "cond.csv" sf
  let st3 := writeStore st2 enginePathOut (File.table (engine cf sf))
  let de := match st3 enginePathOut with
    | some (File.table t) => t
    | _ => ⟨[], []⟩
  (st3, DE.renameCols de t.name col_sep)

/-- The loop over `tests`, threading the store and accumulating the
renamed result tables (`de_data`). -/
def run_tests (engine : File → File → DE.Table) (m : DE.Matrix) (minc : ℚ) :
    List Test → Store → List DE.Table → Store × List DE.Table
  | [], st, acc => (st, acc)
  | t :: ts, st, acc =>
    run_tests engine m minc ts (run_test engine m minc t st).1
      (acc ++ [(run_test engine m minc t st).2])

/-- The pipeline up to (not including) the final merged write:
`de_data` starts from the gene-metadata slice (`de.py` line 41). -/
def pipeline_pre (engine : File → File → DE.Table) (m : DE.Matrix)
    (minc : ℚ) (tests : List Test) (meta : DE.Table) (st : Store) :
    Store × List DE.Table :=
  run_tests engine m minc tests st [meta]

/-- `de.py` lines 62-63: the full pipeline, ending with the merged table
written to `de.csv`. -/
def pipeline (engine : File → File → DE.Table) (m : DE.Matrix) (minc : ℚ)
    (tests : List Test) (meta : DE.Table) (st : Store) : Store :=
  writeStore (pipeline_pre engine m minc tests meta st).1 mergeOutPath
    (File.table (DE.concatInner (pipeline_pre engine m minc tests meta st).2))

theorem writeStore_same (st : Store) (p : String) (f : File) :
    writeStore st p f p = some f := by
  simp [writeStore]

theorem writeStore_other (st : Store) (p q : String) (f : File)
    (h : q ≠ p) : writeStore st p f q = st q := by
  simp [writeStore, h]

theorem run_test_fst_de (engine : File → File → DE.Table) (m : DE.Matrix)
    (minc : ℚ) (t : Test) (st : Store) :
    (run_test engine m minc t st).1 enginePathOut =
      some (File.table (raw_result engine m minc t)) := by
  simp [run_test, raw_result, writeStore_same]

theorem run_test_snd (engine : File → File → DE.Table) (m : DE.Matrix)
    (minc : ℚ) (t : Test) (st : Store) :
    (run_test engine m minc t st).2 =
      DE.renameCols (raw_result engine m minc t) t.name col_sep := by
  simp [run_test, raw_result, writeStore_same]

theorem run_tests_fst_de (engine : File → File → DE.Table) (m : DE.Matrix)
    (minc : ℚ) :
    ∀ (tests : List Test) (h : tests ≠ []) (st : Store)
      (acc : List DE.Table),
      (run_tests engine m minc tests st acc).1 enginePathOut =
        some (File.table (raw_result engine m minc (tests.getLast h))) := by
  intro tests
  induction tests with
  | nil => intro h; exact absurd rfl h
  | cons t ts ih =>
    intro h st acc
    by_cases hts : ts = []
    · subst hts
      simp [run_tests, List.getLast, run_test_fst_de]
    · rw [show (t :: ts).getLast h = ts.getLast hts from
        List.getLast_cons hts]
      exact ih hts _ _

theorem run_tests_snd (engine : File → File → DE.Table) (m : DE.Matrix)
    (minc : ℚ) :
    ∀ (tests : List Test) (st : Store) (acc : List DE.Table),
      (run_tests engine m minc tests st acc).2 =
        acc ++ tests.map fun t =>
          DE.renameCols (raw_result engine m minc t) t.name col_sep := by
  intro tests
  induction tests with
  | nil => simp [run_tests]
  | cons t ts ih =>
    intro st acc
    simp [run_tests, ih, run_test_snd]

end FS

/-- C10: the engine's per-comparison output path and the final merged
write path are both `de.csv`; before the merge write, `de.csv` holds the
last comparison's raw engine result, which had already been read back (the
collected `de_data` are the renamed raw results); the merge write replaces
`de.csv` with the merged table and changes no other path. -/
theorem C10_de_csv_overwritten
    (engine : FS.File → FS.File → DE.Table) (m : DE.Matrix) (minc : ℚ)
    (tests : List FS.Test) (meta : DE.Table) (st : FS.Store)
    (h : tests ≠ []) :
    FS.enginePathOut = FS.mergeOutPath ∧
      (FS.pipeline_pre engine m minc tests meta st).1 FS.mergeOutPath =
        some (FS.File.table
          (FS.raw_result engine m minc (tests.getLast h))) ∧
      (FS.pipeline_pre engine m minc tests meta st).2 =
        meta :: tests.map (fun t =>
          DE.renameCols (FS.raw_result engine m minc t) t.name FS.col_sep) ∧
      FS.pipeline engine m minc tests meta st FS.mergeOutPath =
        some (FS.File.table (DE.concatInner
          (FS.pipeline_pre engine m minc tests meta st).2)) ∧
      (∀ p, p ≠ FS.mergeOutPath →
        FS.pipeline engine m minc tests meta st p =
          (FS.pipeline_pre engine m minc tests meta st).1 p) := by
  refine ⟨rfl, ?_, ?_, ?_, ?_⟩
  · exact FS.run_tests_fst_de engine m minc tests h st [meta]
  · simpa [FS.pipeline_pre] using FS.run_tests_snd engine m minc tests st [meta]
  · exact FS.writeStore_same _ _ _
  · intro p hp
    exact FS.writeStore_other _ _ _ _ hp

/-- Witness for C10: one concrete test, a constant engine, an empty store;
the frame conjunct evaluated at `count.csv`. -/
theorem C10_witness :
    FS.pipeline (fun _ _ => DE.tableX) DE.scenarioMatrix 1
        [⟨"X", ["s1", "s2"], ["s3", "s4"]⟩] DE.tableMeta (fun _ => none)
        "count.csv" =
      (FS.pipeline_pre (fun _ _ => DE.tableX) DE.scenarioMatrix 1
        [⟨"X", ["s1", "s2"], ["s3", "s4"]⟩] DE.tableMeta
        (fun _ => none)).1 "count.csv" :=
  (C10_de_csv_overwritten (fun _ _ => DE.tableX) DE.scenarioMatrix 1
    [⟨"X", ["s1", "s2"], ["s3", "s4"]⟩] DE.tableMeta (fun _ => none)
    (by simp)).2.2.2.2 "count.csv" (by decide)
